import Mathlib

/-!
Verification of the job-posting fraud-detection pipeline ("Job verifier
multi-agent system") against its natural-language specification.

The development is a shallow embedding of the Python sources:

* `src/src/jobverifier/agents/base.py` — `JobContext`, `add_flag`, `AgentError`
* `src/app/utils/constants.py` — the shared constant tables
* `src/app/agents/data_acquisition.py` — URL normalisation, paywall
  detection, escalation, incompleteness classification, side extraction
  (`_trim_description`, `_extract_emails`, `_extract_channels`,
  `_extract_salaries`)
* `src/app/agents/content_analysis.py` — content stage (skip on incomplete
  scrape, LLM feedback processing, conservative fallback)
* `src/app/agents/financial_risk.py` — financial stage
* `src/app/agents/risk_synthesis.py` — weighted scoring, verdict
  derivation, LLM sanity check
* `src/app/workflows/langgraph_pipeline.py` and
  `src/src/jobverifier/pipeline/langgraph_pipeline.py` — the two stage graphs
* `src/src/jobverifier/orchestrator.py` — `process_job` error mapping

Modelling conventions:

* Python strings are Lean `String`s; character-level work happens on
  `List Char`.  Python's `str.lower`/`str.strip`/`str.split` are modelled
  for the ASCII range (`Char.toLower`, `pyIsSpace`), which covers every
  constant and message the sources use.
* Python dicts (`meta`, `flags`) are association lists that keep key
  insertion order and never hold duplicate keys, exactly like CPython
  dicts; updates replace in place, fresh keys append at the end.
* Heterogeneous dict values are the inductive `MVal`.
* Network, browser and LLM effects are threaded in explicitly as
  environment records holding the values the external calls would have
  produced; `None` models an unavailable capability or a swallowed
  exception, mirroring the sources' `Optional` returns.
* `AgentError` is modelled by `Except String`, the carried string being
  the exception message.
* Python `float` arithmetic in the risk score is modelled with exact
  rationals; `round` is modelled as round-half-to-even (`pyRound`),
  which is Python's `round` semantics.
-/

/-- Whitespace test matching Python's ASCII `str.split` / `str.strip` /
regex `\s` class (space, tab, newline, carriage return, vertical tab,
form feed).  Non-ASCII Unicode whitespace is not used by the sources. -/
def pyIsSpace (c : Char) : Bool :=
  c == ' ' || c == '\t' || c == '\n' || c == '\r' || c == '\x0b' || c == '\x0c'

/-- ASCII-faithful model of Python `str.lower` on a character list. -/
def pyLowerL (l : List Char) : List Char := l.map Char.toLower

/-- ASCII-faithful model of Python `str.lower`. -/
def pyLower (s : String) : String := String.mk (pyLowerL s.toList)

/-- Model of Python `str.strip()` (drop leading and trailing whitespace). -/
def pyStripL (l : List Char) : List Char :=
  ((l.dropWhile pyIsSpace).reverse.dropWhile pyIsSpace).reverse

/-- Model of Python `str.strip()` on strings. -/
def pyStrip (s : String) : String := String.mk (pyStripL s.toList)

/-- Substring test on character lists: does `needle` occur contiguously in
`hay`?  Models Python's `needle in hay` for strings. -/
def isSubstr (needle : List Char) : List Char → Bool
  | [] => needle.isEmpty
  | c :: t => needle.isPrefixOf (c :: t) || isSubstr needle t

/-- Model of Python's `needle in hay` on strings. -/
def pyIn (needle hay : String) : Bool := isSubstr needle.toList hay.toList

/-- Model of Python `str.split()` with no separator (split on runs of
whitespace, dropping empty pieces), written with an explicit accumulator
holding the current token reversed so that the definition is structural
and kernel-reducible. -/
def splitWsAux : List Char → List Char → List (List Char)
  | [], cur => if cur.isEmpty then [] else [cur.reverse]
  | c :: cs, cur =>
    if pyIsSpace c then
      (if cur.isEmpty then splitWsAux cs [] else cur.reverse :: splitWsAux cs [])
    else splitWsAux cs (c :: cur)

/-- Model of Python `str.split()` (no-argument form). -/
def splitWs (l : List Char) : List (List Char) := splitWsAux l []

/-- Model of Python `" ".join(tokens)` on token lists. -/
def joinTokens : List (List Char) → List Char
  | [] => []
  | [t] => t
  | t :: ts => t ++ ' ' :: joinTokens ts

/-! ### Constants (`src/app/utils/constants.py`)

The Python sets are written as lists; all uses are order-insensitive
membership / `any` tests. -/

def TOKEN_LIMIT : Nat := 200

def TRUSTED_DOMAINS : List String :=
  ["amazon.jobs", "careers.google.com", "jobs.apple.com", "careers.microsoft.com",
   "jobs.netflix.com", "linkedin.com", "indeed.com", "glassdoor.com", "monster.com",
   "careerbuilder.com", "ziprecruiter.com", "oraclecloud.com", "oracle.com"]

def PAYWALL_INDICATORS : List String :=
  ["sign in", "log in", "login", "join now", "create account", "member login"]

def EXTREME_SCAM_PHRASES : List String :=
  ["send money", "cash daily guaranteed", "pay upfront fee", "send gift card"]

def CRITICAL_FINANCIAL_FLAGS : List String :=
  ["send bitcoin", "wire money upfront", "purchase gift card"]

def FINANCIAL_RED_FLAGS : List String :=
  ["wire transfer", "gift card", "crypto", "bitcoin", "application fee",
   "training fee", "processing fee", "deposit"]

def SENSITIVE_INFO_FLAGS : List String :=
  ["ssn", "social security", "passport", "bank account", "routing number"]

/-! ### Heterogeneous metadata values and dict operations -/

/-- Values stored in the open `meta` mapping of a `JobContext`
(booleans, strings, integers and nested dicts such as `insights`). -/
inductive MVal where
  | vbool : Bool → MVal
  | vstr : String → MVal
  | vint : Int → MVal
  | vdict : List (String × MVal) → MVal
deriving Repr

/-- First-binding lookup in an insertion-ordered dict
(`d.get(k)` / `d[k]`); the modelled dicts never hold duplicate keys. -/
def dictGet : List (String × MVal) → String → Option MVal
  | [], _ => none
  | (k, v) :: rest, key => if k = key then some v else dictGet rest key

/-- In-place update (`d[k] = v`): replaces the existing binding keeping its
position, or appends a fresh binding at the end — CPython dict semantics. -/
def dictSet : List (String × MVal) → String → MVal → List (String × MVal)
  | [], key, v => [(key, v)]
  | (k, w) :: rest, key, v =>
    if k = key then (k, v) :: rest else (k, w) :: dictSet rest key v

/-- Sequential `d.update(pairs)` with the given key/value pairs. -/
def dictUpdate (m : List (String × MVal)) (kvs : List (String × MVal)) :
    List (String × MVal) :=
  kvs.foldl (fun acc kv => dictSet acc kv.1 kv.2) m

/-- Python truthiness of an optional dict value, as used by
`context.meta.get("scraping_incomplete")`-style tests. -/
def mvTruthy : Option MVal → Bool
  | none => false
  | some (MVal.vbool b) => b
  | some (MVal.vstr s) => !(s == "")
  | some (MVal.vint n) => !(n == 0)
  | some (MVal.vdict d) => !d.isEmpty

/-- Truthiness of `meta.get(key)` / `meta.get(key, False)`. -/
def metaTruthy (m : List (String × MVal)) (key : String) : Bool :=
  mvTruthy (dictGet m key)

/-- Net effect of `meta.setdefault("insights", {}).setdefault(sub, {})[k] = v`:
the nested dicts are created when absent (appended at the end, keeping
position when present) and the innermost binding is written. -/
def insightsUpdate (m : List (String × MVal)) (sub key : String) (v : MVal) :
    List (String × MVal) :=
  let ins := match dictGet m "insights" with
    | some (MVal.vdict d) => d
    | _ => []
  let subd := match dictGet ins sub with
    | some (MVal.vdict d) => d
    | _ => []
  dictSet m "insights" (MVal.vdict (dictSet ins sub (MVal.vdict (dictSet subd key v))))

/-- Net effect of `meta.setdefault("insights", {})[key] = v`. -/
def insightsSet (m : List (String × MVal)) (key : String) (v : MVal) :
    List (String × MVal) :=
  let ins := match dictGet m "insights" with
    | some (MVal.vdict d) => d
    | _ => []
  dictSet m "insights" (MVal.vdict (dictSet ins key v))

/-! ### JobContext and the flag ledger
(`src/src/jobverifier/agents/base.py`) -/

/-- Initial content of the `flags` ledger: the five fixed categories, each
with an empty ordered bucket. -/
def defaultFlags : List (String × List String) :=
  [("acquisition", []), ("content", []), ("verification", []),
   ("financial", []), ("intelligence", [])]

/-- Shared mutable state flowing through the agent pipeline
(dataclass `JobContext`). -/
structure JobContext where
  url : String
  raw_html : Option String := none
  title : Option String := none
  company : Option String := none
  description : Option String := none
  trimmed_description : Option String := none
  contact_emails : List String := []
  contact_channels : List String := []
  salary_mentions : List String := []
  meta : List (String × MVal) := []
  flags : List (String × List String) := defaultFlags
deriving Repr

/-- Fresh context for one verification request (`JobContext(url=url)`). -/
def JobContext.init (url : String) : JobContext := { url := url }

/-- Lookup `flags.get(category, [])` in the ledger. -/
def flagsGet : List (String × List String) → String → List String
  | [], _ => []
  | (c, b) :: rest, cat => if c = cat then b else flagsGet rest cat

/-- Append `msg` to a bucket only when not already present
(the body of `add_flag` after `setdefault`). -/
def bucketAdd (b : List String) (msg : String) : List String :=
  if msg ∈ b then b else b ++ [msg]

/-- Ledger-level effect of `add_flag`: `setdefault(category, [])` appends a
fresh empty bucket at the end when the category is unknown, then the
message is appended to the bucket only if absent. -/
def flagsAdd : List (String × List String) → String → String → List (String × List String)
  | [], cat, msg => [(cat, [msg])]
  | (c, b) :: rest, cat, msg =>
    if c = cat then (c, bucketAdd b msg) :: rest
    else (c, b) :: flagsAdd rest cat msg

/-- `JobContext.add_flag(category, message)`. -/
def JobContext.add_flag (ctx : JobContext) (category message : String) : JobContext :=
  { ctx with flags := flagsAdd ctx.flags category message }

/-! ### A small backtracking regex engine

The salary / e-mail patterns of `data_acquisition.py` are compiled by hand
into this AST.  `reMatch` is written in continuation-passing style and
performs ordered alternation and greedy option/star with full
backtracking — the semantics of CPython's `re` for the pattern fragments
used (no capture groups; `re.IGNORECASE` is handled by case-insensitive
literals).  A step-count fuel makes the definition structural, hence
kernel-reducible; `reFuel` below is a generous linear bound on the
recursion depth actually needed. -/

inductive RE where
  | eps : RE
  | cls : (Char → Bool) → RE
  | lit : List Char → RE
  | seq : RE → RE → RE
  | alt : RE → RE → RE
  | opt : RE → RE
  | star : RE → RE

/-- Case-insensitive comparison used for `re.IGNORECASE` literals. -/
def charIEq (a b : Char) : Bool := a.toLower == b.toLower

/-- Strip a (case-insensitive) literal from the head of the input. -/
def stripLit : List Char → List Char → Option (List Char)
  | [], s => some s
  | _ :: _, [] => none
  | c :: cs, d :: ds => if charIEq c d then stripLit cs ds else none

/-- First-success choice on options (ordered alternation). -/
def orElseO (a b : Option (List Char)) : Option (List Char) :=
  match a with
  | some r => some r
  | none => b

/-- Backtracking matcher: try `r` at the head of `s`, calling the
continuation `k` on every admissible remainder in backtracking order
(longest-first for greedy operators, listed order for alternation), and
return the first success.  `star` bodies must consume input (true of all
patterns below); the fuel decreases on every recursive call. -/
def reMatch : Nat → RE → List Char → (List Char → Option (List Char)) →
    Option (List Char)
  | 0, _, _, _ => none
  | _ + 1, RE.eps, s, k => k s
  | _ + 1, RE.cls _, [], _ => none
  | _ + 1, RE.cls p, c :: t, k => if p c then k t else none
  | _ + 1, RE.lit l, s, k =>
    match stripLit l s with
    | some t => k t
    | none => none
  | f + 1, RE.seq a b, s, k => reMatch f a s (fun t => reMatch f b t k)
  | f + 1, RE.alt a b, s, k => orElseO (reMatch f a s k) (reMatch f b s k)
  | f + 1, RE.opt a, s, k => orElseO (reMatch f a s k) (k s)
  | f + 1, RE.star a, s, k =>
    orElseO
      (reMatch f a s (fun t =>
        if t.length < s.length then reMatch f (RE.star a) t k else none))
      (k s)

/-- Fuel bound: ample for the fixed, small patterns below. -/
def reFuel (s : List Char) : Nat := 128 * (s.length + 4)

/-- Match `r` at the start of `s`; on success return the number of
characters consumed (the match length, greedy/backtracking order). -/
def reTryAt (r : RE) (s : List Char) : Option Nat :=
  match reMatch (reFuel s) r s some with
  | some rem => some (s.length - rem.length)
  | none => none

/-- Scanning worker for `re.findall`: try at each position, record
non-overlapping matches left to right, resume after each match. -/
def reFindAllGo (r : RE) : Nat → List Char → List (List Char)
  | 0, _ => []
  | f + 1, s =>
    match reTryAt r s with
    | some n =>
      if n = 0 then
        match s with
        | [] => []
        | _ :: t => reFindAllGo r f t
      else (s.take n) :: reFindAllGo r f (s.drop n)
    | none =>
      match s with
      | [] => []
      | _ :: t => reFindAllGo r f t

/-- Model of `re.findall(pattern, s, flags=re.IGNORECASE)` for patterns
without capture groups (the full matched substrings, leftmost,
non-overlapping).  The patterns below never match the empty string. -/
def reFindAll (r : RE) (s : List Char) : List (List Char) :=
  reFindAllGo r (s.length + 1) s

/-- Ordered alternation over a list (first pattern wins, as in `a|b|c`). -/
def altN : List RE → RE
  | [] => RE.cls (fun _ => false)
  | [r] => r
  | r :: rs => RE.alt r (altN rs)

/-- Sequencing over a list of pattern pieces. -/
def seqN : List RE → RE
  | [] => RE.eps
  | [r] => r
  | r :: rs => RE.seq r (seqN rs)

def reLit (s : String) : RE := RE.lit s.toList

/-- The `\d` class (ASCII digits, as used by the sources). -/
def reDigit : RE := RE.cls Char.isDigit

/-- The `\s` class. -/
def reWs : RE := RE.cls pyIsSpace

/-- Greedy `x{1,3}` as `x(x(x)?)?` (same backtracking order). -/
def reD13 : RE := RE.seq reDigit (RE.opt (RE.seq reDigit (RE.opt reDigit)))

/-- Exactly three digits, `\d{3}`. -/
def reD3 : RE := RE.seq reDigit (RE.seq reDigit reDigit)

/-- Greedy `x+` as `x x*`. -/
def rePlus (r : RE) : RE := RE.seq r (RE.star r)

/-- `(?:,\d{3})` group of the salary patterns. -/
def reComma3 : RE := RE.seq (reLit ",") reD3

/-- The optional unit suffix `(?:hour|hr|week|month|year|annum|annually)?`. -/
def reUnit : RE :=
  RE.opt (altN [reLit "hour", reLit "hr", reLit "week", reLit "month",
                reLit "year", reLit "annum", reLit "annually"])

/-- Common tail `\s?(?:per|/|-)?\s?(?:unit)?` of the currency patterns. -/
def reSalaryTail : RE :=
  seqN [RE.opt reWs, RE.opt (altN [reLit "per", reLit "/", reLit "-"]),
        RE.opt reWs, reUnit]

/-- Pattern 1: dollar amounts
`\$\s?\d{1,3}(?:,\d{3})*(?:\.\d{2})?\s?(?:per|/|-)?\s?(?:hour|...)?`. -/
def salaryPat1 : RE :=
  seqN [reLit "$", RE.opt reWs, reD13, RE.star reComma3,
        RE.opt (RE.seq (reLit ".") (RE.seq reDigit reDigit)), reSalaryTail]

/-- Pattern 2: pound/euro amounts (same shape with `(?:£|€)`). -/
def salaryPat2 : RE :=
  seqN [altN [reLit "£", reLit "€"], RE.opt reWs, reD13, RE.star reComma3,
        RE.opt (RE.seq (reLit ".") (RE.seq reDigit reDigit)), reSalaryTail]

/-- Pattern 3: ranges `\d{1,3}(?:,\d{3})+\s?(?:to|-)\s?\d{1,3}(?:,\d{3})+`. -/
def salaryPat3 : RE :=
  seqN [reD13, rePlus reComma3, RE.opt reWs, altN [reLit "to", reLit "-"],
        RE.opt reWs, reD13, rePlus reComma3]

/-- Pattern 4: labels `(?:salary|pay|compensation):\s?\$?\d{1,3}(?:,\d{3})*`. -/
def salaryPat4 : RE :=
  seqN [altN [reLit "salary", reLit "pay", reLit "compensation"], reLit ":",
        RE.opt reWs, RE.opt (reLit "$"), reD13, RE.star reComma3]

def salaryPatterns : List RE := [salaryPat1, salaryPat2, salaryPat3, salaryPat4]

/-- The raw matched substrings collected pattern by pattern — the value of
the local `salaries` list in `_extract_salaries` before the
`list({match.strip() ...})` set comprehension. -/
def extract_salaries_matches (text : List Char) : List (List Char) :=
  (salaryPatterns.map (fun r => reFindAll r text)).flatten

/-- Order-preserving first-occurrence deduplication (structural, via a
`seen` accumulator). -/
def dedupAux : List String → List String → List String
  | [], _ => []
  | x :: t, seen =>
    if x ∈ seen then dedupAux t seen else x :: dedupAux t (x :: seen)

def dedupFirst (l : List String) : List String := dedupAux l []

/-- `DataAcquisitionAgent._extract_salaries`: the per-pattern `findall`
results are concatenated, then `list({match.strip() for match in
salaries})` strips each match and deduplicates through a Python `set`.
CPython set iteration order is unspecified (string hashing is
randomised per process), so this model fixes the first-occurrence order
of the stripped matches; theorems about this function rely only on
order-insensitive facts (membership and duplicate-freeness). -/
def extract_salaries (text : Option String) : List String :=
  match text with
  | none => []
  | some t =>
    if t = "" then []
    else
      dedupFirst ((extract_salaries_matches t.toList).map
        (fun m => String.mk (pyStripL m)))

/-- Character class of the e-mail local part, `[A-Za-z0-9._%+-]`. -/
def emailLocalChar (c : Char) : Bool :=
  c.isAlpha || c.isDigit || c == '.' || c == '_' || c == '%' || c == '+' || c == '-'

/-- Character class of the e-mail domain part, `[A-Za-z0-9.-]`. -/
def emailDomChar (c : Char) : Bool :=
  c.isAlpha || c.isDigit || c == '.' || c == '-'

/-- The e-mail pattern `[A-Za-z0-9._%+-]+@[A-Za-z0-9.-]+\.[A-Za-z]{2,}`. -/
def emailPat : RE :=
  seqN [rePlus (RE.cls emailLocalChar), reLit "@", rePlus (RE.cls emailDomChar),
        reLit ".", rePlus (RE.cls Char.isAlpha)]

/-- `DataAcquisitionAgent._extract_emails`: regex matches, lowercased and
deduplicated through `list({...})`; as with the salaries, the set
iteration order is unspecified and this model fixes first-occurrence
order. -/
def extract_emails (text : Option String) : List String :=
  match text with
  | none => []
  | some t =>
    if t = "" then []
    else
      dedupFirst ((reFindAll emailPat t.toList).map
        (fun m => String.mk (pyLowerL m)))

/-- `DataAcquisitionAgent._extract_channels`: fixed vocabulary of
consumer-messaging apps found as substrings of the lowered text. -/
def extract_channels (text : Option String) : List String :=
  match text with
  | none => []
  | some t =>
    if t = "" then []
    else
      ["telegram", "whatsapp", "signal", "facebook", "instagram"].filter
        (fun ch => pyIn ch (pyLower t))

/-- `DataAcquisitionAgent._trim_description`: split on whitespace, keep the
first `TOKEN_LIMIT` tokens, re-join with single spaces. -/
def trim_description (description : Option String) : String :=
  match description with
  | none => ""
  | some s =>
    if s = "" then ""
    else String.mk (joinTokens ((splitWs s.toList).take TOKEN_LIMIT))

/-! ### Risk synthesis (`src/app/agents/risk_synthesis.py`)

This is the `app` variant — per the spec's design note, the "stricter,
lower-false-positive" threshold set. -/

/-- Python's builtin `round` (round half to even), on exact rationals. -/
def pyRound (q : ℚ) : ℤ :=
  let f := ⌊q⌋
  if q - f < 1/2 then f
  else if 1/2 < q - f then f + 1
  else if f % 2 = 0 then f else f + 1

/-- Per-category flag counts as collected by the `flag_counter` loop of
`RiskSynthesisAgent.run` (the `Counter` holds exactly the five keys of
`CATEGORY_WEIGHTS`). -/
structure FlagCounter where
  acquisition : Nat
  content : Nat
  verification : Nat
  financial : Nat
  intelligence : Nat
deriving Repr, DecidableEq

/-- `flag_counter.total()`. -/
def FlagCounter.total (c : FlagCounter) : Nat :=
  c.acquisition + c.content + c.verification + c.financial + c.intelligence

/-- Counts read off a flag ledger (`len(context.flags.get(category, []))`
for the five weighted categories). -/
def mkFlagCounter (fl : List (String × List String)) : FlagCounter :=
  ⟨(flagsGet fl "acquisition").length, (flagsGet fl "content").length,
   (flagsGet fl "verification").length, (flagsGet fl "financial").length,
   (flagsGet fl "intelligence").length⟩

/-- The `weighted_total` accumulated by `RiskSynthesisAgent.run`:
`flag_count * 15 * weight` summed over `CATEGORY_WEIGHTS`
(acquisition 0.1, content 0.8, verification 0.9, financial 1.4,
intelligence 0.6), with the acquisition weight dropped to 0.05 on
trusted domains.  Python float arithmetic is modelled exactly on ℚ. -/
def weighted_total (c : FlagCounter) (is_trusted : Bool) : ℚ :=
  (c.acquisition : ℚ) * 15 * (if is_trusted then 1/20 else 1/10)
    + (c.content : ℚ) * 15 * (4/5)
    + (c.verification : ℚ) * 15 * (9/10)
    + (c.financial : ℚ) * 15 * (7/5)
    + (c.intelligence : ℚ) * 15 * (3/5)

/-- `risk_score = min(100, round(weighted_total))`; the `total_weight`
guard never fires (the summed weights are a positive constant). -/
def risk_score (c : FlagCounter) (is_trusted : Bool) : ℤ :=
  min 100 (pyRound (weighted_total c is_trusted))

/-- `RiskSynthesisAgent._derive_verdict` (app variant): the
trusted-and-incomplete early return fires only when every flag outside
the acquisition category is absent; then financial ≥ 3 or score ≥ 85
give `fake`, score ≥ 60 or (financial ≥ 2 and content ≥ 2) give
`suspicious`, else `legit`.  Falling through the early return reaches
the same normal logic as not entering the trusted/incomplete branch. -/
def derive_verdict (rs : ℤ) (c : FlagCounter) (is_trusted scraping_incomplete : Bool) :
    String :=
  if is_trusted && scraping_incomplete && (c.total - c.acquisition == 0) then
    "incomplete_data"
  else if 3 ≤ c.financial then "fake"
  else if 85 ≤ rs then "fake"
  else if 60 ≤ rs ∨ (2 ≤ c.financial ∧ 2 ≤ c.content) then "suspicious"
  else "legit"

/-- Parsing of the sanity-check LLM reply (`_llm_sanity_check` tail): the
stripped, lowered response is scanned for "legit", then "suspicious",
then "fake"; anything else (or a missing/empty reply) yields `None`. -/
def parse_sanity (response : Option String) : Option String :=
  match response with
  | none => none
  | some r =>
    if r = "" then none
    else
      let rl := pyLower (pyStrip r)
      if pyIn "legit" rl then some "legit"
      else if pyIn "suspicious" rl then some "suspicious"
      else if pyIn "fake" rl then some "fake"
      else none

/-- External observations consumed by `RiskSynthesisAgent.run`:
`llm_available()`, the raw `chat` reply of `_llm_sanity_check` and the
raw `chat` reply of `_llm_generate_summary` (`none` models an
unavailable gateway / swallowed transport failure). -/
structure SynthEnv where
  llmAvail : Bool
  sanityResponse : Option String
  summaryResponse : Option String

def synthTrusted (ctx : JobContext) : Bool := metaTruthy ctx.meta "trusted_domain"

def synthIncomplete (ctx : JobContext) : Bool :=
  metaTruthy ctx.meta "scraping_incomplete"

def synthRisk (ctx : JobContext) : ℤ :=
  risk_score (mkFlagCounter ctx.flags) (synthTrusted ctx)

/-- The verdict produced by the deterministic part of the synthesis stage,
before the optional LLM sanity check. -/
def heuristic_verdict (ctx : JobContext) : String :=
  derive_verdict (synthRisk ctx) (mkFlagCounter ctx.flags) (synthTrusted ctx)
    (synthIncomplete ctx)

/-- The sanity-check decision of `RiskSynthesisAgent.run`: `some lv` when
the check fires (gateway available, heuristic verdict `fake` or
`suspicious`) and the parsed LLM answer `lv` differs from the heuristic
verdict; `none` otherwise (check not invoked, unparseable/missing
reply, or agreeing reply). -/
def sanity_override (env : SynthEnv) (hv : String) : Option String :=
  if env.llmAvail && (hv == "fake" || hv == "suspicious") then
    match parse_sanity env.sanityResponse with
    | some lv => if lv ≠ hv then some lv else none
    | none => none
  else none

/-- The verdict `RiskSynthesisAgent.run` writes out: the LLM's answer when
the sanity check overrides, else the heuristic verdict. -/
def out_verdict (env : SynthEnv) (ctx : JobContext) : String :=
  match sanity_override env (heuristic_verdict ctx) with
  | some lv => lv
  | none => heuristic_verdict ctx

/-- Tail of `RiskSynthesisAgent.run`: a truthy narrative reply is stored
under `insights.risk_summary`, otherwise `meta` is left as is. -/
def applySummary (resp : Option String) (m : List (String × MVal)) :
    List (String × MVal) :=
  match resp with
  | some s => if s = "" then m else insightsSet m "risk_summary" (MVal.vstr s)
  | none => m

/-- `RiskSynthesisAgent.run`.  The sanity check runs only under
`llm_available() and verdict in ["fake", "suspicious"]`; a parsed reply
that differs first records the heuristic verdict under
`insights.risk_synthesis.heuristic_verdict` and then replaces the
outgoing verdict.  Afterwards scores, verdict, confidence and the flag
summary are written into `meta`, and a truthy narrative reply is stored
under `insights.risk_summary`. -/
def synthRun (env : SynthEnv) (ctx : JobContext) : JobContext :=
  let counter := mkFlagCounter ctx.flags
  let risk := synthRisk ctx
  let verdict := heuristic_verdict ctx
  let vm : String × List (String × MVal) :=
    match sanity_override env verdict with
    | some lv =>
      (lv, insightsUpdate ctx.meta "risk_synthesis" "heuristic_verdict"
        (MVal.vstr verdict))
    | none => (verdict, ctx.meta)
  let confidence : ℤ := max 0 (min 100 (100 - risk))
  let content_score := (dictGet vm.2 "content_score").getD (MVal.vint 75)
  let verification_score := (dictGet vm.2 "verification_score").getD (MVal.vint 75)
  let financial_score := (dictGet vm.2 "financial_score").getD (MVal.vint 100)
  let meta2 := dictUpdate vm.2
    [("risk_score", MVal.vint risk), ("confidence", MVal.vint confidence),
     ("verdict", MVal.vstr vm.1),
     ("flag_summary", MVal.vdict
       [("acquisition", MVal.vint counter.acquisition),
        ("content", MVal.vint counter.content),
        ("verification", MVal.vint counter.verification),
        ("financial", MVal.vint counter.financial),
        ("intelligence", MVal.vint counter.intelligence)]),
     ("content_score", content_score),
     ("verification_score", verification_score),
     ("financial_score", financial_score)]
  { ctx with meta := applySummary env.summaryResponse meta2 }

/-! ### Content analysis (`src/app/agents/content_analysis.py`) -/

/-- Does the leading whitespace run of `l` end right before a pipe?
(Exactly when the regex `\s+\|` matches at the head of `l`.) -/
def pipeAfterWs (l : List Char) : Bool :=
  match l.dropWhile pyIsSpace with
  | '|' :: _ => true
  | _ => false

/-- Effect of `re.sub(r"\s+\|.*$", "", title)`: cut from the leftmost
position where a whitespace run is followed by `|` (titles are
single-line, so `$` / `.` reach the end of the string). -/
def cutWsPipe : List Char → List Char
  | [] => []
  | c :: t => if pyIsSpace c && pipeAfterWs (c :: t) then [] else c :: cutWsPipe t

/-- Does the leading whitespace run of `l` end right before a dash that is
itself followed by whitespace?  (Exactly when `\s+-\s+` matches at the
head of `l`.) -/
def dashAfterWs (l : List Char) : Bool :=
  match l.dropWhile pyIsSpace with
  | '-' :: d :: _ => pyIsSpace d
  | _ => false

/-- Effect of `re.sub(r"\s+-\s+.*$", "", s)`. -/
def cutWsDash : List Char → List Char
  | [] => []
  | c :: t => if pyIsSpace c && dashAfterWs (c :: t) then [] else c :: cutWsDash t

/-- `ContentAnalysisAgent._extract_job_role`: strip a trailing
`| ...` / ` - ...` qualifier from the title, else `"Unknown Role"`. -/
def extract_job_role (title : Option String) : String :=
  match title with
  | none => "Unknown Role"
  | some s =>
    if s = "" then "Unknown Role"
    else
      let n := pyStripL (cutWsDash (cutWsPipe s.toList))
      if n.isEmpty then "Unknown Role" else String.mk n

/-- Structured LLM reply consumed by `_process_llm_feedback`; fields carry
the post-`get`-default values (`content_score` 75, `financial_score`
100, `summary` "", `confidence` 50, flag lists empty). -/
structure LLMFeedback where
  content_score : ℤ := 75
  financial_score : ℤ := 100
  risk_flags : List String := []
  pii_flags : List String := []
  summary : String := ""
  confidence : ℤ := 50

/-- External observations of the content stage: `llm_available()` and the
parsed `structured_chat` reply of `_llm_review_content` (`none` models
an unavailable gateway, a transport failure or a non-dict reply). -/
structure ContentEnv where
  llmAvail : Bool
  feedback : Option LLMFeedback

/-- `ContentAnalysisAgent._check_extreme_patterns`. -/
def check_extreme_patterns (ctx : JobContext) : JobContext :=
  let text := pyLower (match ctx.trimmed_description with | some s => s | none => "")
  let c1 := EXTREME_SCAM_PHRASES.foldl
    (fun c p => if pyIn p text then c.add_flag "content" ("Extreme scam indicator: " ++ p)
      else c) ctx
  CRITICAL_FINANCIAL_FLAGS.foldl
    (fun c p => if pyIn p text then c.add_flag "financial" ("Extreme financial scam: " ++ p)
      else c) c1

/-- `ContentAnalysisAgent._process_llm_feedback`: record the LLM summary
and confidence in the insights, clamp and store both scores, merge the
LLM's flag strings, and re-check extreme patterns when either score is
below 60. -/
def process_llm_feedback (ctx : JobContext) (fb : LLMFeedback) : JobContext :=
  let m := insightsUpdate ctx.meta "content_analysis" "llm_summary" (MVal.vstr fb.summary)
  let m := insightsUpdate m "content_analysis" "llm_confidence" (MVal.vint fb.confidence)
  let cscore : ℤ := max 0 (min 100 fb.content_score)
  let fscore : ℤ := max 0 (min 100 fb.financial_score)
  let m := dictSet m "content_score" (MVal.vint cscore)
  let m := dictSet m "financial_score" (MVal.vint fscore)
  let c0 : JobContext := { ctx with meta := m }
  let c1 := fb.risk_flags.foldl
    (fun c f => if f = "" then c else c.add_flag "content" f) c0
  let c2 := fb.pii_flags.foldl
    (fun c f => if f = "" then c
      else c.add_flag "financial" ("Inappropriate data request: " ++ f)) c1
  if cscore < 60 ∨ fscore < 60 then check_extreme_patterns c2 else c2

/-- `ContentAnalysisAgent._fallback_analysis` (LLM unavailable): only the
extreme phrase lists are checked; scores 30/20 when something was
found, else the lenient 75/90. -/
def fallback_analysis (ctx : JobContext) (text : String) : JobContext :=
  let lower := pyLower text
  let s1 := EXTREME_SCAM_PHRASES.foldl
    (fun (acc : JobContext × Bool) p =>
      if pyIn p lower then (acc.1.add_flag "content" ("Critical scam phrase: " ++ p), true)
      else acc) (ctx, false)
  let s2 := CRITICAL_FINANCIAL_FLAGS.foldl
    (fun (acc : JobContext × Bool) p =>
      if pyIn p lower then
        (acc.1.add_flag "financial" ("Critical financial scam: " ++ p), true)
      else acc) s1
  let c := s2.1
  if s2.2 then
    let m := dictSet (dictSet c.meta "content_score" (MVal.vint 30))
      "financial_score" (MVal.vint 20)
    { c with meta := m }
  else
    let m := dictSet (dictSet c.meta "content_score" (MVal.vint 75))
      "financial_score" (MVal.vint 90)
    { c with meta := m }

/-- `ContentAnalysisAgent.run`: token count and job role are always
recorded; with `scraping_incomplete` set the stage only notes the skip
and stores the neutral scores 100/100 (no flags); an empty text gets a
single content flag and scores 50/100; otherwise the LLM feedback is
processed when available, else the conservative fallback runs. -/
def contentRun (env : ContentEnv) (ctx : JobContext) : JobContext :=
  let text := match ctx.trimmed_description with | some s => s | none => ""
  let meta0 := dictSet ctx.meta "content_token_count"
    (MVal.vint (splitWs text.toList).length)
  let meta1 := dictSet meta0 "job_role" (MVal.vstr (extract_job_role ctx.title))
  let c0 : JobContext := { ctx with meta := meta1 }
  if metaTruthy c0.meta "scraping_incomplete" then
    let m := insightsUpdate c0.meta "content_analysis" "note"
      (MVal.vstr "Content analysis skipped due to incomplete scrape")
    let m := dictSet m "content_score" (MVal.vint 100)
    let m := dictSet m "financial_score" (MVal.vint 100)
    { c0 with meta := m }
  else if text = "" then
    let c1 := c0.add_flag "content" "Job description missing or empty"
    let m := dictSet c1.meta "content_score" (MVal.vint 50)
    let m := dictSet m "financial_score" (MVal.vint 100)
    { c1 with meta := m }
  else
    match (if env.llmAvail then env.feedback else none) with
    | some fb => process_llm_feedback c0 fb
    | none =>
      let m := insightsUpdate c0.meta "content_analysis" "note"
        (MVal.vstr "LLM unavailable; using basic heuristics")
      fallback_analysis { c0 with meta := m } text

/-! ### Financial risk (`src/app/agents/financial_risk.py`) -/

/-- Value of `int(re.sub(r"[^0-9]", "", mention))` for a digit-bearing
mention. -/
def natOfDigits (ds : List Char) : Nat :=
  ds.foldl (fun a c => a * 10 + (c.toNat - 48)) 0

/-- `FinancialRiskAgent._score_salary_expectations`: average the numeric
content of the salary mentions; flag implausibly high pay for
assistant/entry/junior roles and implausibly low pay for explicit
full-time roles. -/
def score_salary_expectations (ctx : JobContext) : List String :=
  if ctx.salary_mentions.isEmpty then []
  else
    let numeric := ctx.salary_mentions.filterMap (fun m =>
      let ds := m.toList.filter (fun c => c.isDigit)
      if ds.isEmpty then none else some (natOfDigits ds))
    if numeric.isEmpty then []
    else
      let avg : ℚ := ((numeric.foldl (· + ·) 0 : Nat) : ℚ) / (numeric.length : ℚ)
      let role := pyLower (match dictGet ctx.meta "job_role" with
        | some (MVal.vstr s) => s
        | _ => "")
      let s1 : List String :=
        if role ≠ "" ∧ 200000 < avg ∧
            ["assistant", "entry", "junior"].any (fun w => pyIn w role) then
          ["Salary claim far above typical range for role"]
        else []
      let s2 : List String :=
        if avg < 20000 ∧
            pyIn "full time" (pyLower (match ctx.description with
              | some d => d | none => "")) then
          ["Salary claim well below typical full-time compensation"]
        else []
      s1 ++ s2

/-- `FinancialRiskAgent.run`: substring checks of the red-flag and
sensitive-information vocabularies over the lowered description, the
salary-expectation signals, and the score `max(0, 100 - 18*count)`.
The stage performs no `scraping_incomplete` check. -/
def financialRun (ctx : JobContext) : JobContext :=
  let text := pyLower (match ctx.description with | some d => d | none => "")
  let c1 := FINANCIAL_RED_FLAGS.foldl
    (fun c p => if pyIn p text then c.add_flag "financial" ("Financial red flag: " ++ p)
      else c) ctx
  let c2 := SENSITIVE_INFO_FLAGS.foldl
    (fun c p => if pyIn p text then
        c.add_flag "financial" ("Requests sensitive information: " ++ p)
      else c) c1
  let signals := score_salary_expectations c2
  let c3 := signals.foldl (fun c s => c.add_flag "financial" s) c2
  let score : ℤ := max 0 (100 - 18 * ((flagsGet c3.flags "financial").length : ℤ))
  { c3 with meta := dictSet c3.meta "financial_score" (MVal.vint score) }

/-! ### Data acquisition (`src/app/agents/data_acquisition.py`) -/

/-- Python `a or b` on an optional string (`None` and `""` are falsy). -/
def pyOr (o : Option String) (d : String) : String :=
  match o with
  | some s => if s = "" then d else s
  | none => d

/-- Python `a or b` on strings. -/
def pyOrS (a b : String) : String := if a = "" then b else a

/-- Everything before the first `/`, `?` or `#`. -/
def netlocChars (l : List Char) : List Char :=
  l.takeWhile (fun c => !(c == '/' || c == '?' || c == '#'))

/-- Characters following the first `://`, if any. -/
def afterSchemeSep : List Char → Option (List Char)
  | [] => none
  | c :: t =>
    if "://".toList.isPrefixOf (c :: t) then some ((c :: t).drop 3)
    else afterSchemeSep t

/-- Model of `urlparse(url).netloc` for the absolute `scheme://host/...`
URLs the pipeline consumes (no scheme ⇒ empty netloc, as in urlparse). -/
def urlNetloc (url : String) : String :=
  match afterSchemeSep url.toList with
  | some rest => String.mk (netlocChars rest)
  | none => ""

/-- Model of `urlparse(url).query`: the part after the first `?` of the
pre-fragment portion. -/
def urlQuery (url : String) : List Char :=
  match (url.toList.takeWhile (fun c => !(c == '#'))).dropWhile
      (fun c => !(c == '?')) with
  | [] => []
  | _ :: q => q

/-- Split a character list on a separator character. -/
def splitChAux (sep : Char) : List Char → List Char → List (List Char)
  | [], acc => [acc.reverse]
  | c :: t, acc =>
    if c == sep then acc.reverse :: splitChAux sep t []
    else splitChAux sep t (c :: acc)

def splitChar (sep : Char) (l : List Char) : List (List Char) := splitChAux sep l []

/-- First value bound to `key` by `parse_qs` (blank values are dropped, as
with `parse_qs`'s default `keep_blank_values=False`; percent-unquoting
is not modelled — LinkedIn job ids are plain digits). -/
def qsFirstValue (q : List Char) (key : String) : Option (List Char) :=
  (splitChar '&' q).foldr
    (fun comp acc =>
      let ks := comp.takeWhile (fun c => !(c == '='))
      match comp.dropWhile (fun c => !(c == '=')) with
      | [] => acc
      | _ :: v => if ks = key.toList ∧ v ≠ [] then some v else acc)
    none

/-- First occurrence of `/jobs/view/` followed by at least one digit;
returns the maximal digit run (the capture of
`re.search(r"/jobs/view/(\d+)", url)`). -/
def findJobsViewId : List Char → Option (List Char)
  | [] => none
  | c :: t =>
    if "/jobs/view/".toList.isPrefixOf (c :: t) then
      match (c :: t).drop 11 with
      | d :: rest =>
        if d.isDigit then some (d :: rest.takeWhile Char.isDigit)
        else findJobsViewId t
      | [] => findJobsViewId t
    else findJobsViewId t

/-- `_normalize_linkedin_url`: rewrite `currentJobId=` query parameters or
`/jobs/view/<id>` paths to the canonical per-posting view URL. -/
def normalize_linkedin_url (url : String) : String :=
  let viewForm : String :=
    if pyIn "/jobs/view/" url then
      match findJobsViewId url.toList with
      | some ds => "https://www.linkedin.com/jobs/view/" ++ String.mk ds
      | none => url
    else url
  if pyIn "currentJobId=" url then
    match qsFirstValue (urlQuery url) "currentJobId" with
    | some v => "https://www.linkedin.com/jobs/view/" ++ String.mk v
    | none => viewForm
  else viewForm

/-- Observation of one parsed HTML document: what the BeautifulSoup
selector helpers (`_extract_title` / `_extract_company` /
`_extract_description`) return on it, `str(soup)`, and whether
`soup.find_all("form", class_=login|sign-in)` is nonempty.  The HTML
parsing itself is outside the model. -/
structure PageView where
  html : String
  title : Option String
  company : Option String
  description : Option String
  hasLoginForm : Bool
deriving Repr

/-- `_detect_paywall(soup, text)`: an authentication-wall indicator phrase
in the lowered text together with fewer than 100 whitespace-separated
words, or a login form in the page. -/
def detect_paywall (page : PageView) (text : String) : Bool :=
  let tl := pyLower text
  (PAYWALL_INDICATORS.any (fun ind => pyIn ind tl)
      && decide ((splitWs text.toList).length < 100))
    || page.hasLoginForm

/-- External effects consumed by `DataAcquisitionAgent.run`: the parsed
result of the `requests` fetch (`none` models the request raising, with
`fetchExcText` the exception text), browser availability and rendering
results, the `use_browser` switch, and the current timestamp. -/
structure FetchEnv where
  requestsResult : Option PageView
  fetchExcText : String := ""
  playwrightAvailable : Bool := false
  seleniumAvailable : Bool := false
  playwrightResult : Option PageView := none
  seleniumResult : Option PageView := none
  useBrowser : Bool := true
  now : String := ""

/-- Working state of the extraction/escalation phase of the run. -/
structure DAExtract where
  page : PageView
  title : String
  company : String
  description : String
  descLen : Nat
  method : String
deriving Repr

/-- One escalation step (the shared shape of the Playwright and Selenium
branches): accept the rendered page only when it yields a nonempty
description strictly longer than the current best. -/
def daUpgrade (st : DAExtract) (cand : Option PageView) (newMethod : String) :
    DAExtract :=
  match cand with
  | none => st
  | some pv =>
    match pv.description with
    | none => st
    | some d =>
      if d ≠ "" ∧ st.descLen < d.length then
        ⟨pv, pyOr pv.title st.title, pyOr pv.company st.company, d, d.length, newMethod⟩
      else st

/-- Initial selector extraction plus the escalation policy of
`DataAcquisitionAgent.run`: Playwright first when the description is
short, the domain trusted and browser use enabled, then Selenium if
still short. -/
def daExtract (env : FetchEnv) (page : PageView) (is_trusted : Bool) : DAExtract :=
  let title0 := pyOr page.title "Title not found"
  let company0 := pyOr page.company "Company not found"
  let desc0 := pyOr page.description "Description not found"
  let len0 := if desc0 = "Description not found" then 0 else desc0.length
  let st0 : DAExtract := ⟨page, title0, company0, desc0, len0, "requests"⟩
  if len0 < 100 && env.useBrowser && is_trusted then
    let st1 := if env.playwrightAvailable then
        daUpgrade st0 env.playwrightResult "playwright"
      else st0
    if st1.descLen < 100 && env.seleniumAvailable then
      daUpgrade st1 env.seleniumResult "selenium"
    else st1
  else st0

/-- The `AgentError` message raised on paywall detection (actionable
remediation text plus the original URL). -/
def paywallMessage (originalUrl : String) : String :=
  "Cannot access job posting - login required. Detected signs of authentication wall. For LinkedIn jobs, you may need to be logged in. Try: 1) Log into LinkedIn in browser, 2) Use Indeed/Glassdoor, 3) Visit company career page directly. Original URL: "
    ++ originalUrl

/-- Flag text and incompleteness reason chosen by the trusted-domain
short-description classification. -/
def incompleteTexts (env : FetchEnv) (method : String) (descLen : Nat) :
    String × String :=
  if method = "requests" then
    let browsersAvailable := env.playwrightAvailable || env.seleniumAvailable
    if browsersAvailable && !env.useBrowser then
      ("Unable to extract full description - site uses JavaScript. Browser support available but disabled.",
       "Browser automation disabled; page likely requires JavaScript to render.")
    else if !browsersAvailable then
      ("Unable to extract full description - install selenium/playwright for JS rendering support.",
       "Install Playwright or Selenium to render the full job posting.")
    else
      ("Unable to extract full description even with " ++ method ++ ". Visit URL directly.",
       "JavaScript rendering attempted but content remained truncated.")
  else
    ("Description still short after " ++ method ++ " rendering (" ++ toString descLen ++ " chars)",
     "Content remained short after " ++ method ++ " rendering.")

/-- URL normalisation step at the top of `DataAcquisitionAgent.run`
(LinkedIn URLs are canonicalised, everything else passes through). -/
def daNormUrl (url : String) : String :=
  if pyIn "linkedin.com" (pyLower url) then normalize_linkedin_url url else url

/-- Trust classification of `DataAcquisitionAgent.run`: some trusted-list
entry is a substring of the lowered netloc of the (normalised) URL. -/
def daTrusted (url : String) : Bool :=
  TRUSTED_DOMAINS.any (fun t => pyIn t (pyLower (urlNetloc (daNormUrl url))))

/-- `DataAcquisitionAgent.run`.  Only two exits abort: a failed initial
fetch and paywall detection (the source also adds an acquisition flag
right before raising; the mutated context is discarded by the raise, so
the model returns only the error message).  Every other degradation is
recorded as flags/metadata and the stage returns normally. -/
def daRun (env : FetchEnv) (ctx0 : JobContext) : Except String JobContext :=
  let originalUrl := ctx0.url
  let ctxA : JobContext := { ctx0 with url := daNormUrl ctx0.url }
  let is_trusted := daTrusted ctx0.url
  match env.requestsResult with
  | none => Except.error ("Failed to fetch URL: " ++ env.fetchExcText)
  | some page =>
    let ext := daExtract env page is_trusted
    let ctxB : JobContext := { ctxA with
      title := some ext.title, company := some ext.company,
      description := some ext.description, raw_html := some ext.page.html }
    let m := dictSet ctxB.meta "scraping_method" (MVal.vstr ext.method)
    let m := dictSet m "rendered_html_method" (MVal.vstr ext.method)
    let m := dictSet m "rendered_html" (MVal.vstr ext.page.html)
    let m := insightsUpdate m "scraping" "method" (MVal.vstr ext.method)
    let m := insightsUpdate m "scraping" "description_length" (MVal.vint ext.descLen)
    let m := insightsUpdate m "scraping" "last_updated" (MVal.vstr env.now)
    let ctxC : JobContext := { ctxB with meta := m }
    let fullText := ext.title ++ " " ++ ext.description
    if detect_paywall ext.page fullText then
      Except.error (paywallMessage originalUrl)
    else
      let descLen := if ext.description = "Description not found" then 0
        else ext.description.length
      let ctxD := if is_trusted then
          { ctxC with meta := dictSet ctxC.meta "trusted_domain" (MVal.vbool true) }
        else ctxC
      let cr : JobContext × Option String :=
        if descLen < 100 then
          if is_trusted then
            let fr := incompleteTexts env ext.method descLen
            let c := ctxD.add_flag "acquisition" fr.1
            let m2 := dictSet c.meta "scraping_incomplete" (MVal.vbool true)
            let m2 := dictSet m2 "trusted_domain" (MVal.vbool true)
            ({ c with meta := m2 }, some fr.2)
          else
            let c := ctxD.add_flag "acquisition"
              ("Job description very short (" ++ toString descLen
                ++ " chars) - may be incomplete or behind paywall")
            (c, some "Non-trusted domain with very short content; manual review required.")
        else (ctxD, none)
      let ctxE :=
        match cr.2 with
        | some reason =>
          let m2 := insightsUpdate cr.1.meta "scraping" "status" (MVal.vstr "incomplete")
          let m2 := insightsUpdate m2 "scraping" "reason" (MVal.vstr reason)
          let m2 := dictSet m2 "scraping_incomplete_reason" (MVal.vstr reason)
          { cr.1 with meta := m2 }
        | none =>
          let m2 := if ext.method ≠ "requests" then
              dictSet cr.1.meta "js_rendering_used" (MVal.vbool true)
            else cr.1.meta
          let m2 := insightsUpdate m2 "scraping" "status" (MVal.vstr "complete")
          let m2 := insightsUpdate m2 "scraping" "reason"
            (MVal.vstr "Description length sufficient for analysis.")
          { cr.1 with meta := m2 }
      let trimmed := trim_description (some ext.description)
      let m3 := dictSet ctxE.meta "scraped_at" (MVal.vstr env.now)
      let m3 := dictSet m3 "source_domain" (MVal.vstr (urlNetloc ctxE.url))
      let m3 := dictSet m3 "token_count"
        (MVal.vint (if trimmed = "" then 0 else (splitWs trimmed.toList).length))
      let ctxF : JobContext :=
        { ctxE with
          meta := m3
          trimmed_description := some trimmed
          contact_emails := extract_emails (some ext.description)
          contact_channels := extract_channels (some ext.description)
          salary_mentions := extract_salaries (some ext.description) }
      let ctxG := if ext.title = "Title not found" then
          ctxF.add_flag "acquisition" "Job title missing from page"
        else ctxF
      let ctxH := if ext.description = "Description not found" then
          (if is_trusted then
            ctxG.add_flag "acquisition"
              "Unable to extract description from trusted site - may require JavaScript"
          else ctxG.add_flag "acquisition" "Job description missing from page")
        else ctxG
      let ctxI := if ctxH.contact_emails.isEmpty then
          (if is_trusted then
            { ctxH with meta := dictSet ctxH.meta "no_email_expected" (MVal.vbool true) }
          else ctxH.add_flag "acquisition" "No contact email found - verification limited")
        else ctxH
      let ctxJ := if ctxI.salary_mentions.isEmpty then
          (if is_trusted then
            { ctxI with meta := dictSet ctxI.meta "no_salary_expected" (MVal.vbool true) }
          else ctxI.add_flag "acquisition"
            "No salary information found - financial analysis limited")
        else ctxI
      Except.ok ctxJ

/-! ### Pipeline runner and orchestrator
(`langgraph_pipeline.py`, `orchestrator.py`) -/

/-- Sequential execution of a stage chain over the single shared context;
an `AgentError` from any stage short-circuits the rest (LangGraph
propagates the exception out of `invoke`). -/
def runPipeline (stages : List (JobContext → Except String JobContext))
    (ctx : JobContext) : Except String JobContext :=
  stages.foldl (fun acc st => acc.bind st) (Except.ok ctx)

/-- Integer read of `meta.get(key, 0)`. -/
def mvToInt : Option MVal → ℤ
  | some (MVal.vint n) => n
  | _ => 0

/-- String read of `meta.get(key, default)`. -/
def mvToStr (o : Option MVal) (d : String) : String :=
  match o with
  | some (MVal.vstr s) => s
  | _ => d

/-- Projection of the orchestrator's result dict (the fields the claims
concern: verdict, error reason, scores, flag-ledger snapshot). -/
structure VerifyResult where
  verdict : String
  reason : Option String := none
  risk_score : ℤ := 0
  confidence : ℤ := 0
  flags : List (String × List String) := []
deriving Repr

/-- `ParentOrchestrator.process_job`: run the chain on a fresh context;
an `AgentError` is mapped to verdict `error` with the exception text as
the reason, otherwise the context is projected into the result dict. -/
def process_job (stages : List (JobContext → Except String JobContext))
    (url : String) : VerifyResult :=
  match runPipeline stages (JobContext.init url) with
  | Except.error e => { verdict := "error", reason := some e }
  | Except.ok c =>
    { verdict := mvToStr (dictGet c.meta "verdict") "unknown",
      risk_score := mvToInt (dictGet c.meta "risk_score"),
      confidence := mvToInt (dictGet c.meta "confidence"),
      flags := c.flags }

/-! ### The two LangGraph stage graphs, as node/edge lists
(`add_node`/`add_edge` calls in source order; `START`/`END` are the
LangGraph sentinels). -/

/-- `_add_common_nodes` of `src/app/workflows/langgraph_pipeline.py`. -/
def appAddCommonNodes (prev : String) : List String × List (String × String) :=
  (["content_analysis", "information_extraction", "company_intelligence",
    "source_verification", "risk_synthesis"],
   [(prev, "content_analysis"), ("content_analysis", "information_extraction"),
    ("information_extraction", "company_intelligence"),
    ("company_intelligence", "source_verification"),
    ("source_verification", "risk_synthesis"), ("risk_synthesis", "END")])

/-- `build_agent_graph` of `src/app/workflows/langgraph_pipeline.py`. -/
def appBuildAgentGraph (includeScrape : Bool) :
    List String × List (String × String) :=
  if includeScrape then
    let common := appAddCommonNodes "data_acquisition"
    ("data_acquisition" :: common.1, ("START", "data_acquisition") :: common.2)
  else appAddCommonNodes "START"

/-- `_add_common_nodes` of
`src/src/jobverifier/pipeline/langgraph_pipeline.py`. -/
def jvAddCommonNodes (prev : String) : List String × List (String × String) :=
  (["content_analysis", "source_verification", "company_intelligence",
    "financial_risk", "risk_synthesis"],
   [(prev, "content_analysis"), ("content_analysis", "source_verification"),
    ("source_verification", "company_intelligence"),
    ("company_intelligence", "financial_risk"),
    ("financial_risk", "risk_synthesis"), ("risk_synthesis", "END")])

/-- `build_agent_graph` of
`src/src/jobverifier/pipeline/langgraph_pipeline.py`. -/
def jvBuildAgentGraph (includeScrape : Bool) :
    List String × List (String × String) :=
  if includeScrape then
    let common := jvAddCommonNodes "data_acquisition"
    ("data_acquisition" :: common.1, ("START", "data_acquisition") :: common.2)
  else jvAddCommonNodes "START"

/-- First outgoing edge of a node. -/
def edgeFrom (edges : List (String × String)) (n : String) : Option String :=
  match edges with
  | [] => none
  | e :: rest => if e.1 = n then some e.2 else edgeFrom rest n

/-- Follow the unique successor chain from a node (stopping at `END` or
when no edge leaves the node). -/
def walkFrom (edges : List (String × String)) : Nat → String → List String
  | 0, _ => []
  | f + 1, n =>
    match edgeFrom edges n with
    | none => []
    | some m => if m = "END" then [] else m :: walkFrom edges f m

/-- The sequence of stage nodes a compiled graph executes: the successor
chain from `START`. -/
def execOrder (g : List String × List (String × String)) : List String :=
  walkFrom g.2 (g.2.length + 1) "START"

/-- Read of `meta["insights"][sub][key]` through the nested-dict model. -/
def insightsGet (m : List (String × MVal)) (sub key : String) : Option MVal :=
  match dictGet m "insights" with
  | some (MVal.vdict ins) =>
    match dictGet ins sub with
    | some (MVal.vdict d) => dictGet d key
    | _ => none
  | _ => none

/-! ### Concrete fixtures used by the claim witnesses and counterexamples -/

/-- Ledger with five acquisition flags and nothing else (claim C1). -/
def c1fl : List (String × List String) := [("acquisition", ["a", "b", "c", "d", "e"])]

/-- Context with an incomplete scrape and a "wire transfer" description
(claim C5). -/
def c5ctx : JobContext :=
  { url := "https://example-jobs.test/post",
    description := some "Pay via wire transfer before starting",
    meta := [("scraping_incomplete", MVal.vbool true)] }

/-- Context whose ledger carries three financial flags, so the heuristic
verdict is `fake` (claim C4). -/
def c4ctx : JobContext :=
  { url := "https://sketchy.test/job",
    flags := [("acquisition", []), ("content", []), ("verification", []),
              ("financial", ["f1", "f2", "f3"]), ("intelligence", [])] }

/-- Available gateway whose sanity reply is "legit" (claim C4). -/
def c4env : SynthEnv :=
  { llmAvail := true, sanityResponse := some "legit", summaryResponse := none }

/-- Fetched page showing a login wall (claim C3). -/
def c3page : PageView :=
  { html := "<html><form class=\x22login-form\x22></form></html>",
    title := some "Sign in required", company := none,
    description := some "Please log in to view this job", hasLoginForm := true }

/-- Fetch environment delivering the login-wall page (claim C3). -/
def c3env : FetchEnv := { requestsResult := some c3page }

/-- Untrusted posting URL (claim C3). -/
def c3url : String := "https://example.test/j/42"

/-! ## Lemmas and claim theorems -/

/-! Ledger lemmas used by claim C7. -/

theorem flagsGet_flagsAdd_same (fl : List (String × List String)) (cat msg : String) :
    flagsGet (flagsAdd fl cat msg) cat = bucketAdd (flagsGet fl cat) msg := by
  induction fl with
  | nil => simp [flagsAdd, flagsGet, bucketAdd]
  | cons hd tl ih =>
    obtain ⟨c, b⟩ := hd
    by_cases h : c = cat
    · simp [flagsAdd, flagsGet, h]
    · simp [flagsAdd, flagsGet, h, ih]

theorem flagsGet_flagsAdd_other (fl : List (String × List String)) (cat cat' msg : String)
    (h : cat' ≠ cat) :
    flagsGet (flagsAdd fl cat msg) cat' = flagsGet fl cat' := by
  have h' : ¬cat = cat' := fun hh => h hh.symm
  induction fl with
  | nil => simp [flagsAdd, flagsGet, h']
  | cons hd tl ih =>
    obtain ⟨c, b⟩ := hd
    by_cases hc : c = cat
    · subst hc
      simp [flagsAdd, flagsGet, h']
    · by_cases hc' : c = cat'
      · subst hc'
        simp [flagsAdd, flagsGet, hc]
      · simp [flagsAdd, flagsGet, hc, hc', ih]

theorem bucketAdd_idem (b : List String) (msg : String) :
    bucketAdd (bucketAdd b msg) msg = bucketAdd b msg := by
  by_cases h : msg ∈ b
  · simp [bucketAdd, h]
  · simp [bucketAdd, h]

theorem flagsAdd_idem (fl : List (String × List String)) (cat msg : String) :
    flagsAdd (flagsAdd fl cat msg) cat msg = flagsAdd fl cat msg := by
  induction fl with
  | nil => simp [flagsAdd, bucketAdd]
  | cons hd tl ih =>
    obtain ⟨c, b⟩ := hd
    by_cases h : c = cat
    · simp [flagsAdd, h, bucketAdd_idem]
    · simp [flagsAdd, h, ih]

theorem bucketAdd_nodup (b : List String) (msg : String) (h : b.Nodup) :
    (bucketAdd b msg).Nodup := by
  by_cases hm : msg ∈ b
  · simpa [bucketAdd, hm] using h
  · simp [bucketAdd, hm, List.nodup_append, h, hm]

/-! ### Lemmas about `splitWs` / `joinTokens` (claim C9) and `dedupFirst` (claim C10) -/

theorem splitWsAux_nil (cur : List Char) :
    splitWsAux [] cur = if cur.isEmpty then [] else [cur.reverse] := rfl

theorem splitWsAux_cons (c : Char) (cs cur : List Char) :
    splitWsAux (c :: cs) cur =
      if pyIsSpace c then
        (if cur.isEmpty then splitWsAux cs [] else cur.reverse :: splitWsAux cs [])
      else splitWsAux cs (c :: cur) := rfl

theorem splitWsAux_good (l : List Char) :
    ∀ cur, (∀ c ∈ cur, pyIsSpace c = false) →
      ∀ t ∈ splitWsAux l cur, t ≠ [] ∧ ∀ c ∈ t, pyIsSpace c = false := by
  induction l with
  | nil =>
    intro cur hcur t ht
    rw [splitWsAux_nil] at ht
    by_cases h : cur.isEmpty
    · simp [h] at ht
    · simp [h] at ht
      subst ht
      refine ⟨fun hrev => ?_, fun c hc => hcur c (by simpa using hc)⟩
      have : cur = [] := by simpa using congrArg List.reverse hrev
      simp [this] at h
  | cons c cs ih =>
    intro cur hcur t ht
    rw [splitWsAux_cons] at ht
    by_cases hsp : pyIsSpace c
    · rw [if_pos hsp] at ht
      by_cases hem : cur.isEmpty
      · rw [if_pos hem] at ht
        exact ih [] (by simp) t ht
      · rw [if_neg hem] at ht
        rcases List.mem_cons.mp ht with ht | ht
        · subst ht
          refine ⟨fun hrev => ?_, fun d hd => hcur d (by simpa using hd)⟩
          have : cur = [] := by simpa using congrArg List.reverse hrev
          simp [this] at hem
        · exact ih [] (by simp) t ht
    · rw [if_neg hsp] at ht
      refine ih (c :: cur) ?_ t ht
      intro d hd
      rcases List.mem_cons.mp hd with h | h
      · subst h; simpa using hsp
      · exact hcur d h

theorem splitWs_good (l : List Char) :
    ∀ t ∈ splitWs l, t ≠ [] ∧ ∀ c ∈ t, pyIsSpace c = false :=
  splitWsAux_good l [] (by simp)

theorem splitWsAux_push (t : List Char) :
    ∀ rest cur, (∀ c ∈ t, pyIsSpace c = false) →
      splitWsAux (t ++ rest) cur = splitWsAux rest (t.reverse ++ cur) := by
  induction t with
  | nil => intro rest cur _; simp
  | cons c cs ih =>
    intro rest cur h
    have hc : pyIsSpace c = false := h c (by simp)
    rw [List.cons_append, splitWsAux_cons, if_neg (by simp [hc]),
      ih rest (c :: cur) (fun d hd => h d (by simp [hd]))]
    simp

theorem splitWs_joinTokens (ts : List (List Char))
    (h : ∀ t ∈ ts, t ≠ [] ∧ ∀ c ∈ t, pyIsSpace c = false) :
    splitWs (joinTokens ts) = ts := by
  induction ts with
  | nil => rfl
  | cons t ts ih =>
    obtain ⟨hne, hgood⟩ := h t (by simp)
    have hne' : t.reverse.isEmpty = false := by
      cases t with
      | nil => exact absurd rfl hne
      | cons a b => simp
    cases ts with
    | nil =>
      show splitWs (joinTokens [t]) = [t]
      unfold joinTokens splitWs
      rw [show (t : List Char) = t ++ [] from (List.append_nil t).symm,
        splitWsAux_push t [] [] hgood, splitWsAux_nil, if_neg (by simp [hne'])]
      simp
    | cons t' ts' =>
      show splitWs (t ++ ' ' :: joinTokens (t' :: ts')) = t :: t' :: ts'
      unfold splitWs
      rw [splitWsAux_push t (' ' :: joinTokens (t' :: ts')) [] hgood,
        splitWsAux_cons, if_pos (show pyIsSpace ' ' = true from rfl),
        if_neg (by simp [hne'])]
      have := ih (fun u hu => h u (by simp [hu]))
      unfold splitWs at this
      rw [this]
      simp

theorem dedupAux_nodup (l : List String) :
    ∀ seen, (dedupAux l seen).Nodup ∧ ∀ x ∈ dedupAux l seen, x ∉ seen := by
  induction l with
  | nil => intro seen; simp [dedupAux]
  | cons a t ih =>
    intro seen
    by_cases h : a ∈ seen
    · rw [show dedupAux (a :: t) seen = dedupAux t seen from by
        simp [dedupAux, h]]
      exact ih seen
    · rw [show dedupAux (a :: t) seen = a :: dedupAux t (a :: seen) from by
        simp [dedupAux, h]]
      obtain ⟨hnd, hns⟩ := ih (a :: seen)
      refine ⟨List.nodup_cons.mpr ⟨fun ha => hns a ha (by simp), hnd⟩, ?_⟩
      intro x hx
      rcases List.mem_cons.mp hx with hx | hx
      · subst hx; exact h
      · exact fun hxs => hns x hx (by simp [hxs])

theorem dedupAux_mem (l : List String) :
    ∀ seen x, x ∈ dedupAux l seen ↔ x ∈ l ∧ x ∉ seen := by
  induction l with
  | nil => intro seen x; simp [dedupAux]
  | cons a t ih =>
    intro seen x
    by_cases h : a ∈ seen
    · rw [show dedupAux (a :: t) seen = dedupAux t seen from by
        simp [dedupAux, h]]
      rw [ih seen x]
      constructor
      · exact fun ⟨hx, hs⟩ => ⟨by simp [hx], hs⟩
      · rintro ⟨hx, hs⟩
        rcases List.mem_cons.mp hx with hx | hx
        · subst hx; exact absurd h hs
        · exact ⟨hx, hs⟩
    · rw [show dedupAux (a :: t) seen = a :: dedupAux t (a :: seen) from by
        simp [dedupAux, h]]
      constructor
      · intro hx
        rcases List.mem_cons.mp hx with hx | hx
        · subst hx; exact ⟨by simp, h⟩
        · obtain ⟨hxt, hxs⟩ := (ih (a :: seen) x).mp hx
          exact ⟨by simp [hxt], fun hs => hxs (by simp [hs])⟩
      · rintro ⟨hx, hs⟩
        by_cases hxa : x = a
        · subst hxa; simp
        · rcases List.mem_cons.mp hx with hx | hx
          · exact absurd hx hxa
          · exact List.mem_cons_of_mem _ ((ih (a :: seen) x).mpr
              ⟨hx, by simp [hxa, hs]⟩)

theorem dedupFirst_nodup (l : List String) : (dedupFirst l).Nodup :=
  (dedupAux_nodup l []).1

theorem dedupFirst_mem (l : List String) (x : String) :
    x ∈ dedupFirst l ↔ x ∈ l := by
  simpa using dedupAux_mem l [] x

/-! Rounding lemmas for the risk score. -/

theorem pyRound_ge_floor (q : ℚ) : ⌊q⌋ ≤ pyRound q := by
  unfold pyRound
  simp only []
  split_ifs <;> omega

theorem pyRound_le_floor_succ (q : ℚ) : pyRound q ≤ ⌊q⌋ + 1 := by
  unfold pyRound
  simp only []
  split_ifs <;> omega

theorem pyRound_add_21_ge (q : ℚ) : pyRound q ≤ pyRound (q + 21) := by
  have h1 : pyRound q ≤ ⌊q⌋ + 1 := pyRound_le_floor_succ q
  have h2 : ⌊q + (21:ℚ)⌋ = ⌊q⌋ + 21 := by
    have := Int.floor_add_int q (21 : ℤ)
    push_cast at this
    exact this
  have h3 : ⌊q + 21⌋ ≤ pyRound (q + 21) := pyRound_ge_floor (q + 21)
  omega

/-! ### Access lemmas for the dict model -/

theorem dictGet_dictSet_same (m : List (String × MVal)) (k : String) (v : MVal) :
    dictGet (dictSet m k v) k = some v := by
  induction m with
  | nil => simp [dictSet, dictGet]
  | cons hd tl ih =>
    obtain ⟨k', w⟩ := hd
    by_cases h : k' = k
    · simp [dictSet, dictGet, h]
    · simp [dictSet, dictGet, h, ih]

theorem dictGet_dictSet_ne (m : List (String × MVal)) (k k' : String) (v : MVal)
    (h : k' ≠ k) : dictGet (dictSet m k v) k' = dictGet m k' := by
  have h' : ¬k = k' := fun hh => h hh.symm
  induction m with
  | nil => simp [dictSet, dictGet, h']
  | cons hd tl ih =>
    obtain ⟨k0, w⟩ := hd
    by_cases h0 : k0 = k
    · subst h0
      simp [dictSet, dictGet, h']
    · by_cases h1 : k0 = k'
      · simp [dictSet, dictGet, h0, h1, h]
      · simp [dictSet, dictGet, h0, h1, ih]

theorem insightsGet_insightsUpdate_same (m : List (String × MVal))
    (sub key : String) (v : MVal) :
    insightsGet (insightsUpdate m sub key v) sub key = some v := by
  unfold insightsGet insightsUpdate
  simp [dictGet_dictSet_same]

theorem insightsGet_dictSet_ne (m : List (String × MVal)) (k sub key : String)
    (v : MVal) (h : k ≠ "insights") :
    insightsGet (dictSet m k v) sub key = insightsGet m sub key := by
  unfold insightsGet
  rw [dictGet_dictSet_ne _ _ _ _ (fun hh => h hh.symm)]

theorem insightsGet_insightsSet_ne (m : List (String × MVal))
    (k sub key : String) (v : MVal) (h : sub ≠ k) :
    insightsGet (insightsSet m k v) sub key = insightsGet m sub key := by
  unfold insightsGet insightsSet
  simp only [dictGet_dictSet_same, dictGet_dictSet_ne _ _ _ _ h]
  cases hm : dictGet m "insights" with
  | none => simp [dictGet]
  | some val => cases val <;> simp [dictGet]

/-! ### Substring lemmas -/

theorem isPrefixOf_append (n a b : List Char) (h : n.isPrefixOf a = true) :
    n.isPrefixOf (a ++ b) = true := by
  induction n generalizing a with
  | nil => simp [List.isPrefixOf]
  | cons c t ih =>
    cases a with
    | nil => simp [List.isPrefixOf] at h
    | cons d u =>
      simp only [List.isPrefixOf, List.cons_append, Bool.and_eq_true] at h ⊢
      exact ⟨h.1, ih u h.2⟩

theorem isSubstr_append_left (n a b : List Char) (h : isSubstr n a = true) :
    isSubstr n (a ++ b) = true := by
  induction a with
  | nil =>
    simp [isSubstr] at h
    subst h
    cases b with
    | nil => simp [isSubstr]
    | cons c t => simp [isSubstr, List.isPrefixOf]
  | cons c t ih =>
    simp only [isSubstr, Bool.or_eq_true] at h
    rcases h with h | h
    · simp only [List.cons_append, isSubstr, Bool.or_eq_true]
      exact Or.inl (isPrefixOf_append n (c :: t) b h)
    · simp only [List.cons_append, isSubstr, Bool.or_eq_true]
      exact Or.inr (ih h)

/-! ### Ledger key lemma -/

theorem flagsAdd_keys (fl : List (String × List String)) (cat msg : String) :
    (flagsAdd fl cat msg).map Prod.fst =
      (if cat ∈ fl.map Prod.fst then fl.map Prod.fst
       else fl.map Prod.fst ++ [cat]) := by
  induction fl with
  | nil => simp [flagsAdd]
  | cons hd tl ih =>
    obtain ⟨c, b⟩ := hd
    by_cases h : c = cat
    · subst h
      simp [flagsAdd]
    · have h' : ¬cat = c := fun hh => h hh.symm
      by_cases hm : cat ∈ tl.map Prod.fst
      · simp [flagsAdd, h, h', hm, ih]
      · simp [flagsAdd, h, h', hm, ih]

/-! ### Pipeline short-circuit lemma -/

theorem runPipeline_error_foldl (stages : List (JobContext → Except String JobContext))
    (e : String) :
    stages.foldl (fun acc st => acc.bind st) (Except.error e) = Except.error e := by
  induction stages with
  | nil => rfl
  | cons st rest ih => simpa [Except.bind] using ih

theorem toList_mk (l : List Char) : (String.mk l).toList = l := rfl

/-- Claim C7: `add_flag` appends the message to `flags[category]` only when
it is not already present (string equality), so adding the same
(category, message) pair twice leaves exactly one entry; the bucket
grows only at its end (within-category first-insertion order is
preserved), other categories are untouched, duplicate-freeness is
preserved, an unknown category gets a fresh bucket appended at the end
of the ledger, and no field other than `flags` is mutated. -/
theorem C7_add_flag_contract (ctx : JobContext) (cat msg : String) :
    (ctx.add_flag cat msg).add_flag cat msg = ctx.add_flag cat msg ∧
    flagsGet (ctx.add_flag cat msg).flags cat =
      (if msg ∈ flagsGet ctx.flags cat then flagsGet ctx.flags cat
       else flagsGet ctx.flags cat ++ [msg]) ∧
    (∀ cat', cat' ≠ cat →
      flagsGet (ctx.add_flag cat msg).flags cat' = flagsGet ctx.flags cat') ∧
    ((flagsGet ctx.flags cat).Nodup →
      (flagsGet (ctx.add_flag cat msg).flags cat).Nodup) ∧
    ((ctx.add_flag cat msg).flags.map Prod.fst =
      if cat ∈ ctx.flags.map Prod.fst then ctx.flags.map Prod.fst
      else ctx.flags.map Prod.fst ++ [cat]) ∧
    (ctx.add_flag cat msg).url = ctx.url ∧
    (ctx.add_flag cat msg).title = ctx.title ∧
    (ctx.add_flag cat msg).company = ctx.company ∧
    (ctx.add_flag cat msg).description = ctx.description ∧
    (ctx.add_flag cat msg).trimmed_description = ctx.trimmed_description ∧
    (ctx.add_flag cat msg).raw_html = ctx.raw_html ∧
    (ctx.add_flag cat msg).contact_emails = ctx.contact_emails ∧
    (ctx.add_flag cat msg).contact_channels = ctx.contact_channels ∧
    (ctx.add_flag cat msg).salary_mentions = ctx.salary_mentions ∧
    (ctx.add_flag cat msg).meta = ctx.meta := by
  refine ⟨?_, ?_, ?_, ?_, ?_, rfl, rfl, rfl, rfl, rfl, rfl, rfl, rfl, rfl, rfl⟩
  · simp [JobContext.add_flag, flagsAdd_idem]
  · simp [JobContext.add_flag, flagsGet_flagsAdd_same, bucketAdd]
  · intro cat' hne
    simp [JobContext.add_flag, flagsGet_flagsAdd_other _ _ _ _ hne]
  · intro hnd
    simp only [JobContext.add_flag, flagsGet_flagsAdd_same]
    exact bucketAdd_nodup _ _ hnd
  · simp [JobContext.add_flag, flagsAdd_keys]

/-- Witness for claim C7 at a concrete context and message. -/
theorem C7_witness :
    ((JobContext.init "https://x.test").add_flag "financial" "wire").add_flag
        "financial" "wire"
      = (JobContext.init "https://x.test").add_flag "financial" "wire" ∧
    flagsGet (((JobContext.init "https://x.test").add_flag "financial" "wire").flags)
      "verification" = [] :=
  have h := C7_add_flag_contract (JobContext.init "https://x.test") "financial" "wire"
  ⟨h.1, (h.2.2.1 "verification" (by decide)).trans (by rfl)⟩

/-- Claim C1: with the domain trusted and scraping incomplete, a flag
ledger holding zero flags outside the acquisition category makes the
verdict derivation return `incomplete_data`, for every risk score and
regardless of how many acquisition flags are present. -/
theorem C1_trusted_incomplete_verdict (rs : ℤ) (fl : List (String × List String))
    (h : ∀ cat, cat ≠ "acquisition" → flagsGet fl cat = []) :
    derive_verdict rs (mkFlagCounter fl) true true = "incomplete_data" := by
  have hc : flagsGet fl "content" = [] := h _ (by decide)
  have hv : flagsGet fl "verification" = [] := h _ (by decide)
  have hf : flagsGet fl "financial" = [] := h _ (by decide)
  have hi : flagsGet fl "intelligence" = [] := h _ (by decide)
  unfold derive_verdict mkFlagCounter FlagCounter.total
  simp [hc, hv, hf, hi]

/-- Witness for claim C1: five acquisition flags, nothing else. -/
theorem C1_witness :
    (∀ cat, cat ≠ "acquisition" → flagsGet c1fl cat = []) ∧
    derive_verdict 0 (mkFlagCounter c1fl) true true = "incomplete_data" :=
  have hh : ∀ cat, cat ≠ "acquisition" → flagsGet c1fl cat = [] := by
    intro cat hc
    unfold c1fl flagsGet
    rw [if_neg (fun hh => hc hh.symm)]
    rfl
  ⟨hh, C1_trusted_incomplete_verdict 0 c1fl hh⟩

/-- Claim C2: outside the trusted-and-incomplete case, a financial flag
count at or above the multi-flag threshold 3 yields verdict `fake`;
with exactly one fewer financial flag (2) and the risk score held below
the very-high cutoff 85, the verdict is never `fake` — at most
`suspicious`. -/
theorem C2_financial_threshold (rs : ℤ) (c : FlagCounter) (t i : Bool)
    (h : ¬(t = true ∧ i = true)) :
    (3 ≤ c.financial → derive_verdict rs c t i = "fake") ∧
    (c.financial = 2 → rs < 85 →
      derive_verdict rs c t i = "suspicious" ∨ derive_verdict rs c t i = "legit") := by
  have hti : (t && i) = false := by
    cases t <;> cases i <;> simp_all
  unfold derive_verdict
  rw [hti, Bool.false_and, if_neg (by simp)]
  constructor
  · intro h3
    rw [if_pos h3]
  · intro h2 h85
    rw [if_neg (by omega), if_neg (by omega)]
    by_cases hs : 60 ≤ rs ∨ (2 ≤ c.financial ∧ 2 ≤ c.content)
    · rw [if_pos hs]; exact Or.inl rfl
    · rw [if_neg hs]; exact Or.inr rfl

/-- Witness for claim C2 at the threshold and one below it. -/
theorem C2_witness :
    derive_verdict 0 ⟨0, 0, 0, 3, 0⟩ false false = "fake" ∧
    (derive_verdict 0 ⟨0, 5, 0, 2, 0⟩ false false = "suspicious" ∨
      derive_verdict 0 ⟨0, 5, 0, 2, 0⟩ false false = "legit") :=
  ⟨(C2_financial_threshold 0 ⟨0, 0, 0, 3, 0⟩ false false (by simp)).1 (by decide),
   (C2_financial_threshold 0 ⟨0, 5, 0, 2, 0⟩ false false (by simp)).2 rfl (by decide)⟩

/-- Claim C6: holding the trust flag and all other categories\' flag
counts constant, adding one more financial-category flag never
decreases `riskScore = min(100, round(weightedTotal))`. -/
theorem C6_risk_score_monotone (c : FlagCounter) (t : Bool) :
    risk_score c t ≤ risk_score { c with financial := c.financial + 1 } t := by
  have hw : weighted_total { c with financial := c.financial + 1 } t
      = weighted_total c t + 21 := by
    unfold weighted_total
    push_cast
    ring
  unfold risk_score
  rw [hw]
  have := pyRound_add_21_ge (weighted_total c t)
  omega

/-- Claim C9: `_trim_description` is idempotent — applied to its own
output it returns that output unchanged — and the output always holds
at most `TOKEN_LIMIT` (200) whitespace-separated tokens. -/
theorem C9_trim_idempotent (s : Option String) :
    trim_description (some (trim_description s)) = trim_description s ∧
    (splitWs (trim_description s).toList).length ≤ TOKEN_LIMIT := by
  match s with
  | none => exact ⟨rfl, by simp [trim_description, splitWs, splitWsAux]⟩
  | some str =>
    by_cases hs : str = ""
    · subst hs
      exact ⟨rfl, by simp [trim_description, splitWs, splitWsAux]⟩
    · have hmain : trim_description (some str)
          = String.mk (joinTokens ((splitWs str.toList).take TOKEN_LIMIT)) := by
        simp [trim_description, hs]
      set ts := (splitWs str.toList).take TOKEN_LIMIT with hts
      have hgood : ∀ t ∈ ts, t ≠ [] ∧ ∀ c ∈ t, pyIsSpace c = false :=
        fun t ht => splitWs_good _ t (List.mem_of_mem_take ht)
      have hsplit : splitWs (joinTokens ts) = ts := splitWs_joinTokens ts hgood
      have hlen : ts.length ≤ TOKEN_LIMIT := by
        rw [hts]; simp [List.length_take]
      constructor
      · rw [hmain]
        by_cases hr : String.mk (joinTokens ts) = ""
        · rw [hr]; simp [trim_description]
        · simp only [trim_description]
          rw [if_neg hr, toList_mk, hsplit, List.take_of_length_le hlen]
      · rw [hmain, toList_mk, hsplit]
        exact hlen

/-- Claim C10 (amended): `_extract_salaries` returns the regex-matched
salary substrings with surrounding whitespace stripped, deduplicated
(first occurrence kept in this model); the matches are collected
pattern by pattern and the real output order is CPython set iteration
order (unspecified), so only membership and duplicate-freeness are
asserted. -/
theorem C10_salaries_amended (t : String) :
    (extract_salaries (some t)).Nodup ∧
    (∀ s, s ∈ extract_salaries (some t) ↔
      s ∈ (extract_salaries_matches t.toList).map (fun m => String.mk (pyStripL m))) := by
  by_cases ht : t = ""
  · subst ht
    have hm : extract_salaries_matches ([] : List Char) = [] := by decide
    constructor
    · simp [extract_salaries]
    · intro s
      simp [extract_salaries, hm]
  · simp only [extract_salaries, if_neg ht]
    exact ⟨dedupFirst_nodup _, fun s => dedupFirst_mem _ s⟩

/-- Claim C10 counterexample: on "$100 abc" the only raw regex match is
"$100 " (with a trailing space), yet the function returns the stripped
"$100" — the output is not the list of raw matched substrings. -/
theorem C10_salaries_counterexample :
    extract_salaries_matches ("$100 abc".toList) = ["$100 ".toList] ∧
    extract_salaries (some "$100 abc") = ["$100"] ∧
    ("$100 " : String) ≠ "$100" :=
  ⟨by decide, by decide, by decide⟩

/-- Claim C8 counterexample: the claimed fixed total order executes every
stage including financial risk and information extraction, but the app
graph has no financial-risk node and the jobverifier graph has no
information-extraction node, so neither pipeline executes the claimed
six stages. -/
theorem C8_missing_stages_counterexample :
    "financial_risk" ∉ execOrder (appBuildAgentGraph true) ∧
    "information_extraction" ∉ execOrder (jvBuildAgentGraph true) ∧
    "financial_risk" ∉ (appBuildAgentGraph true).1 ∧
    "information_extraction" ∉ (jvBuildAgentGraph true).1 := by
  refine ⟨by decide, by decide, by decide, by decide⟩

/-- Claim C8 (amended): each pipeline variant is a fixed linear chain
whose stages execute exactly once per run with no retries and no
backward edges; the app variant runs data acquisition, content
analysis, information extraction, company intelligence, source
verification, risk synthesis (financial risk absent), and the
jobverifier variant runs data acquisition, content analysis, source
verification, company intelligence, financial risk, risk synthesis
(information extraction absent). -/
theorem C8_linear_chain_amended :
    execOrder (appBuildAgentGraph true) =
      ["data_acquisition", "content_analysis", "information_extraction",
       "company_intelligence", "source_verification", "risk_synthesis"] ∧
    execOrder (jvBuildAgentGraph true) =
      ["data_acquisition", "content_analysis", "source_verification",
       "company_intelligence", "financial_risk", "risk_synthesis"] ∧
    (execOrder (appBuildAgentGraph true)).Nodup ∧
    (execOrder (jvBuildAgentGraph true)).Nodup ∧
    (appBuildAgentGraph true).1 = execOrder (appBuildAgentGraph true) ∧
    (jvBuildAgentGraph true).1 = execOrder (jvBuildAgentGraph true) ∧
    (appBuildAgentGraph true).2 =
      [("START", "data_acquisition"), ("data_acquisition", "content_analysis"),
       ("content_analysis", "information_extraction"),
       ("information_extraction", "company_intelligence"),
       ("company_intelligence", "source_verification"),
       ("source_verification", "risk_synthesis"), ("risk_synthesis", "END")] ∧
    (jvBuildAgentGraph true).2 =
      [("START", "data_acquisition"), ("data_acquisition", "content_analysis"),
       ("content_analysis", "source_verification"),
       ("source_verification", "company_intelligence"),
       ("company_intelligence", "financial_risk"),
       ("financial_risk", "risk_synthesis"), ("risk_synthesis", "END")] := by
  refine ⟨by decide, by decide, by decide, by decide, by decide, by decide,
    by decide, by decide⟩

theorem metaTruthy_dictSet_ne (m : List (String × MVal)) (k key : String) (v : MVal)
    (h : key ≠ k) : metaTruthy (dictSet m k v) key = metaTruthy m key := by
  unfold metaTruthy
  rw [dictGet_dictSet_ne _ _ _ _ h]

/-- Claim C5 (amended): the content analysis stage skips heavy analysis
when `scraping_incomplete` is set on the input context — its run leaves
the flag ledger unchanged and records the neutral scores 100/100.  The
original claim extended this to every signal stage; the financial risk
stage (and likewise source verification and information extraction)
runs its checks regardless, see the counterexample. -/
theorem C5_content_skip_amended (env : ContentEnv) (ctx : JobContext)
    (h : metaTruthy ctx.meta "scraping_incomplete" = true) :
    (contentRun env ctx).flags = ctx.flags ∧
    dictGet (contentRun env ctx).meta "content_score" = some (MVal.vint 100) ∧
    dictGet (contentRun env ctx).meta "financial_score" = some (MVal.vint 100) := by
  simp only [contentRun]
  rw [metaTruthy_dictSet_ne _ _ _ _ (by decide), metaTruthy_dictSet_ne _ _ _ _ (by decide), h]
  simp only [if_true]
  refine ⟨trivial, ?_, ?_⟩
  · rw [dictGet_dictSet_ne _ _ _ _ (by decide), dictGet_dictSet_same]
  · rw [dictGet_dictSet_same]

/-- Witness for claim C5 (amended) at a concrete incomplete-scrape
context. -/
theorem C5_content_skip_witness :
    metaTruthy c5ctx.meta "scraping_incomplete" = true ∧
    (contentRun { llmAvail := false, feedback := none } c5ctx).flags = c5ctx.flags ∧
    dictGet (contentRun { llmAvail := false, feedback := none } c5ctx).meta
      "content_score" = some (MVal.vint 100) :=
  have h := C5_content_skip_amended { llmAvail := false, feedback := none } c5ctx rfl
  ⟨rfl, h.1, h.2.1⟩

/-- Claim C5 counterexample: on a context with `scraping_incomplete` set
whose description contains "wire transfer", the financial risk stage
still adds a financial flag — not every signal stage skips analysis and
stays flag-free under an incomplete scrape. -/
theorem C5_financial_no_skip_counterexample :
    metaTruthy c5ctx.meta "scraping_incomplete" = true ∧
    flagsGet (financialRun c5ctx).flags "financial"
      = ["Financial red flag: wire transfer"] ∧
    flagsGet c5ctx.flags "financial" = [] :=
  ⟨rfl, by decide, rfl⟩

theorem dictGet_insightsSet_ne (m : List (String × MVal)) (k key : String) (v : MVal)
    (h : key ≠ "insights") :
    dictGet (insightsSet m k v) key = dictGet m key := by
  unfold insightsSet
  rw [dictGet_dictSet_ne _ _ _ _ h]

theorem dictGet_verdict_after_updates (m : List (String × MVal))
    (risk conf v fs cs vs fin : MVal) :
    dictGet (dictUpdate m
      [("risk_score", risk), ("confidence", conf), ("verdict", v),
       ("flag_summary", fs), ("content_score", cs),
       ("verification_score", vs), ("financial_score", fin)]) "verdict" = some v := by
  unfold dictUpdate
  simp only [List.foldl]
  rw [dictGet_dictSet_ne _ _ _ _ (by decide), dictGet_dictSet_ne _ _ _ _ (by decide),
    dictGet_dictSet_ne _ _ _ _ (by decide), dictGet_dictSet_ne _ _ _ _ (by decide),
    dictGet_dictSet_same]

theorem insightsGet_after_updates (m : List (String × MVal))
    (risk conf v fs cs vs fin : MVal) (sub key : String) :
    insightsGet (dictUpdate m
      [("risk_score", risk), ("confidence", conf), ("verdict", v),
       ("flag_summary", fs), ("content_score", cs),
       ("verification_score", vs), ("financial_score", fin)]) sub key
      = insightsGet m sub key := by
  unfold dictUpdate
  simp only [List.foldl]
  rw [insightsGet_dictSet_ne _ _ _ _ _ (by decide), insightsGet_dictSet_ne _ _ _ _ _ (by decide),
    insightsGet_dictSet_ne _ _ _ _ _ (by decide), insightsGet_dictSet_ne _ _ _ _ _ (by decide),
    insightsGet_dictSet_ne _ _ _ _ _ (by decide), insightsGet_dictSet_ne _ _ _ _ _ (by decide),
    insightsGet_dictSet_ne _ _ _ _ _ (by decide)]

theorem dictGet_applySummary_ne (resp : Option String) (m : List (String × MVal))
    (key : String) (h : key ≠ "insights") :
    dictGet (applySummary resp m) key = dictGet m key := by
  cases resp with
  | none => rfl
  | some s =>
    by_cases hse : s = ""
    · simp [applySummary, hse]
    · simp only [applySummary, if_neg hse]
      exact dictGet_insightsSet_ne _ _ _ _ h

theorem insightsGet_applySummary_ne (resp : Option String) (m : List (String × MVal))
    (sub key : String) (h : sub ≠ "risk_summary") :
    insightsGet (applySummary resp m) sub key = insightsGet m sub key := by
  cases resp with
  | none => rfl
  | some s =>
    by_cases hse : s = ""
    · simp [applySummary, hse]
    · simp only [applySummary, if_neg hse]
      exact insightsGet_insightsSet_ne _ _ _ _ _ h

theorem synthRun_verdict_read (env : SynthEnv) (ctx : JobContext) :
    dictGet (synthRun env ctx).meta "verdict" = some (MVal.vstr (out_verdict env ctx)) := by
  unfold out_verdict
  simp only [synthRun]
  rw [dictGet_applySummary_ne _ _ _ (by decide)]
  cases ho : sanity_override env (heuristic_verdict ctx) with
  | none =>
    simp only []
    exact dictGet_verdict_after_updates _ _ _ _ _ _ _ _
  | some lv =>
    simp only []
    exact dictGet_verdict_after_updates _ _ _ _ _ _ _ _

/-- Claim C4: when the gateway is unavailable or the heuristic verdict is
neither `fake` nor `suspicious`, the synthesis outcome is independent
of the sanity-check reply (the check is not consulted) and the
heuristic verdict goes out; when the check fires and the parsed answer
differs, the heuristic verdict is recorded under
`insights.risk_synthesis.heuristic_verdict` and the LLM answer becomes
the outgoing verdict; a missing or unparseable reply leaves the
heuristic verdict untouched. -/
theorem C4_sanity_check_override (env : SynthEnv) (ctx : JobContext) :
    (¬(env.llmAvail = true ∧
        (heuristic_verdict ctx = "fake" ∨ heuristic_verdict ctx = "suspicious")) →
      (∀ r, synthRun { env with sanityResponse := r } ctx = synthRun env ctx) ∧
      dictGet (synthRun env ctx).meta "verdict"
        = some (MVal.vstr (heuristic_verdict ctx))) ∧
    (env.llmAvail = true →
      (heuristic_verdict ctx = "fake" ∨ heuristic_verdict ctx = "suspicious") →
      ∀ v, parse_sanity env.sanityResponse = some v → v ≠ heuristic_verdict ctx →
        dictGet (synthRun env ctx).meta "verdict" = some (MVal.vstr v) ∧
        insightsGet (synthRun env ctx).meta "risk_synthesis" "heuristic_verdict"
          = some (MVal.vstr (heuristic_verdict ctx))) ∧
    (parse_sanity env.sanityResponse = none →
      dictGet (synthRun env ctx).meta "verdict"
        = some (MVal.vstr (heuristic_verdict ctx))) := by
  refine ⟨?_, ?_, ?_⟩
  · intro hno
    have hguard : (env.llmAvail &&
        (heuristic_verdict ctx == "fake" || heuristic_verdict ctx == "suspicious"))
        = false := by
      by_contra hcon
      rw [Bool.not_eq_false, Bool.and_eq_true, Bool.or_eq_true, beq_iff_eq,
        beq_iff_eq] at hcon
      exact hno hcon
    have hov : ∀ r, sanity_override { env with sanityResponse := r }
        (heuristic_verdict ctx) = none := by
      intro r
      simp [sanity_override, hguard]
    have hov0 : sanity_override env (heuristic_verdict ctx) = none := by
      simp [sanity_override, hguard]
    constructor
    · intro r
      simp only [synthRun, hov r, hov0]
    · rw [synthRun_verdict_read]
      unfold out_verdict
      rw [hov0]
  · intro hav hfs v hp hne
    have hguard : (env.llmAvail &&
        (heuristic_verdict ctx == "fake" || heuristic_verdict ctx == "suspicious"))
        = true := by
      rw [hav, Bool.true_and, Bool.or_eq_true, beq_iff_eq, beq_iff_eq]
      exact hfs
    have hov : sanity_override env (heuristic_verdict ctx) = some v := by
      simp [sanity_override, hguard, hp, hne]
    constructor
    · rw [synthRun_verdict_read]
      unfold out_verdict
      rw [hov]
    · simp only [synthRun, hov]
      rw [insightsGet_applySummary_ne _ _ _ _ (by decide),
        insightsGet_after_updates, insightsGet_insightsUpdate_same]
  · intro hp
    have hov : sanity_override env (heuristic_verdict ctx) = none := by
      unfold sanity_override
      rw [hp]
      split <;> rfl
    rw [synthRun_verdict_read]
    unfold out_verdict
    rw [hov]

/-- Witness for claim C4: three financial flags make the heuristic verdict
`fake`; the "legit" sanity reply overrides it and the audit trail keeps
the heuristic verdict. -/
theorem C4_witness :
    heuristic_verdict c4ctx = "fake" ∧
    dictGet (synthRun c4env c4ctx).meta "verdict" = some (MVal.vstr "legit") ∧
    insightsGet (synthRun c4env c4ctx).meta "risk_synthesis" "heuristic_verdict"
      = some (MVal.vstr "fake") := by
  have hfake : heuristic_verdict c4ctx = "fake" := by decide
  have h := (C4_sanity_check_override c4env c4ctx).2.1 rfl (Or.inl hfake) "legit"
    (by decide) (by rw [hfake]; decide)
  rw [hfake] at h
  exact ⟨hfake, h.1, h.2⟩

theorem pyIn_append_left (needle a b : String) (h : pyIn needle a = true) :
    pyIn needle (a ++ b) = true := by
  unfold pyIn at h ⊢
  have hab : (a ++ b).toList = a.toList ++ b.toList := by
    simp [String.toList]
  rw [hab]
  exact isSubstr_append_left _ _ _ h

/-- Claim C3: paywall detection holds exactly when an authentication-wall
indicator phrase occurs in the extracted text with fewer than 100
words, or the page carries a login form; in that case data acquisition
raises a hard `AgentError` whose message contains the remediation text,
the runner maps it to a result with verdict `error` carrying the
failure reason and no subsequent stage runs (the result is the same for
every choice of later stages); and when the fetch succeeded and no
paywall is detected the stage returns normally, so no other degradation
aborts the pipeline.  (A completely failed fetch is the one further
hard error, per the spec\'s error taxonomy; it is not a degradation of
acquired data.) -/
theorem C3_paywall_hard_error (env : FetchEnv) (ctx : JobContext) (page : PageView)
    (hreq : env.requestsResult = some page) :
    (∀ (p : PageView) (text : String),
      detect_paywall p text = true ↔
        ((∃ ind ∈ PAYWALL_INDICATORS, pyIn ind (pyLower text) = true) ∧
          (splitWs text.toList).length < 100) ∨ p.hasLoginForm = true) ∧
    (detect_paywall (daExtract env page (daTrusted ctx.url)).page
        ((daExtract env page (daTrusted ctx.url)).title ++ " " ++
          (daExtract env page (daTrusted ctx.url)).description) = true →
      daRun env ctx = Except.error (paywallMessage ctx.url) ∧
      pyIn "Try:" (paywallMessage ctx.url) = true ∧
      pyIn "login required" (paywallMessage ctx.url) = true) ∧
    (detect_paywall (daExtract env page (daTrusted ctx.url)).page
        ((daExtract env page (daTrusted ctx.url)).title ++ " " ++
          (daExtract env page (daTrusted ctx.url)).description) = false →
      ∃ ctx2, daRun env ctx = Except.ok ctx2) ∧
    (∀ (rest : List (JobContext → Except String JobContext)) (url e : String),
      daRun env (JobContext.init url) = Except.error e →
      process_job (daRun env :: rest) url = { verdict := "error", reason := some e }) := by
  refine ⟨?_, ?_, ?_, ?_⟩
  · intro p text
    simp [detect_paywall, List.any_eq_true, Bool.or_eq_true, Bool.and_eq_true,
      decide_eq_true_iff]
  · intro hd
    refine ⟨?_, ?_, ?_⟩
    · simp only [daRun, hreq]
      rw [if_pos hd]
    · unfold paywallMessage
      exact pyIn_append_left _ _ _ (by decide)
    · unfold paywallMessage
      exact pyIn_append_left _ _ _ (by decide)
  · intro hd
    simp only [daRun, hreq]
    rw [if_neg (by simp [hd])]
    exact ⟨_, rfl⟩
  · intro rest url e hda
    unfold process_job runPipeline
    simp only [List.foldl]
    rw [show (Except.ok (JobContext.init url)).bind (daRun env) = Except.error e from by
      simp [Except.bind, hda]]
    rw [runPipeline_error_foldl]

/-- Witness for claim C3: a login-wall page makes the stage fail hard with
the remediation message and the runner reports verdict `error`. -/
theorem C3_witness :
    c3env.requestsResult = some c3page ∧
    detect_paywall (daExtract c3env c3page (daTrusted c3url)).page
      ((daExtract c3env c3page (daTrusted c3url)).title ++ " " ++
        (daExtract c3env c3page (daTrusted c3url)).description) = true ∧
    daRun c3env (JobContext.init c3url) = Except.error (paywallMessage c3url) ∧
    process_job (daRun c3env :: [fun c => Except.ok c]) c3url
      = { verdict := "error", reason := some (paywallMessage c3url) } := by
  have h := C3_paywall_hard_error c3env (JobContext.init c3url) c3page rfl
  have hd : detect_paywall (daExtract c3env c3page (daTrusted c3url)).page
      ((daExtract c3env c3page (daTrusted c3url)).title ++ " " ++
        (daExtract c3env c3page (daTrusted c3url)).description) = true := by decide
  have herr := (h.2.1 hd).1
  exact ⟨rfl, hd, herr, h.2.2.2 [fun c => Except.ok c] c3url _ herr⟩
